import Mathlib

/-!
Shallow embedding of the shrewd parser-combinator engine (src/src/index.ts,
with the example grammars in src/parsers).  A parser is a function from the
immutable input and the current cursor position to a parse result paired with
the final cursor position.  The TypeScript engine threads one mutable
`Source`; since its `input` field is never written, state is exactly the
position.  A TypeScript `ParseResultFail` carries a reference to the (still
mutating) `Source`, so the failure position reported to a caller is the
cursor position at the time the combinator returned; here that is the second
component of the returned pair.
-/

namespace Shrewd

/-- Outcome of one parse attempt: `ParseResultOk` holds the value,
`ParseResultFail` holds the optional reason (its position is the cursor
position returned alongside). -/
inductive ParseResult (T : Type) where
  | ok (value : T)
  | fail (reason : Option String)
deriving DecidableEq

namespace ParseResult

/-- Mirrors the `success` discriminant of the TypeScript result classes. -/
def isOk {T : Type} : ParseResult T → Bool
  | .ok _ => true
  | .fail _ => false

/-- Forgets a success value, keeping failures as they are; used to relate a
discard-marked parser to its value-keeping counterpart (TypeScript converts
the success value to `undefined` and returns failures unchanged). -/
def toUnit {T : Type} : ParseResult T → ParseResult Unit
  | .ok _ => .ok ()
  | .fail r => .fail r

end ParseResult

/-- A parser: input and current position to result and final position. -/
abbrev Parser (T : Type) : Type := List Char → Nat → ParseResult T × Nat

/-- `Source.next`: `charAt` of the current position.  In range, the character
is returned and the position advances by one; past the end `charAt` yields
the empty string, the decrement undoes the increment and the position is
unchanged.  The empty-string sentinel is modelled as `none`. -/
def next (input : List Char) (pos : Nat) : Option Char × Nat :=
  match input[pos]? with
  | some c => (some c, pos + 1)
  | none => (none, pos)

/-- `any()`: consumes and produces the next character, fails at end of
input. -/
def anyP : Parser Char := fun input pos =>
  match next input pos with
  | (some c, pos') => (.ok c, pos')
  | (none, pos') => (.fail (some "expected any character, got EOF"), pos')

/-- `char(c)`: consumes the next character and succeeds iff it equals `c`.
The single-character precondition of the TypeScript function is captured by
the `Char` argument type.  At end of input the sentinel is distinct from
every character, so the comparison fails with the position unchanged. -/
def charP (c : Char) : Parser Char := fun input pos =>
  match next input pos with
  | (some ch, pos') =>
      if ch = c then (.ok ch, pos')
      else (.fail (some ("expecting \"" ++ String.mk [c] ++ "\", got \"" ++ String.mk [ch] ++ "\"")), pos')
  | (none, pos') =>
      (.fail (some ("expecting \"" ++ String.mk [c] ++ "\", got \"\"")), pos')

/-- `oneOf(chars)`: consumes the next character and succeeds iff it is a
member of `chars`; the end-of-input sentinel is never a member. -/
def oneOfP (chars : List Char) : Parser Char := fun input pos =>
  match next input pos with
  | (some ch, pos') =>
      if ch ∈ chars then (.ok ch, pos')
      else (.fail (some ("one of \"" ++ String.mk chars ++ "\"")), pos')
  | (none, pos') =>
      (.fail (some ("one of \"" ++ String.mk chars ++ "\"")), pos')

/-- `eof()`: succeeds with no value iff the cursor is at end of input,
otherwise consumes and reports the unexpected character. -/
def eofP : Parser Unit := fun input pos =>
  match next input pos with
  | (none, pos') => (.ok (), pos')
  | (some ch, pos') =>
      (.fail (some ("expected \"EOF\", got \"" ++ String.mk [ch] ++ "\"")), pos')

/-- `Or.parse`: save the position, run the first parser; on its success
return that result, otherwise restore the saved position and return the
second parser's result verbatim. -/
def orP {T : Type} (p q : Parser T) : Parser T := fun input pos =>
  match p input pos with
  | (.ok v, pos') => (.ok v, pos')
  | (.fail _, _) => q input pos

/-- `Then.parse`: run the first parser, propagating its failure verbatim;
then the second from where the first stopped, propagating its failure
verbatim; pair the two values on success. -/
def thenP {T U : Type} (p : Parser T) (q : Parser U) : Parser (T × U) := fun input pos =>
  match p input pos with
  | (.fail r, pos') => (.fail r, pos')
  | (.ok v, pos₁) =>
      match q input pos₁ with
      | (.fail r, pos₂) => (.fail r, pos₂)
      | (.ok w, pos₂) => (.ok (v, w), pos₂)

/-- `Next.parse`: like `thenP` but the first value is dropped. -/
def nextP {T U : Type} (p : Parser T) (q : Parser U) : Parser U := fun input pos =>
  match p input pos with
  | (.fail r, pos') => (.fail r, pos')
  | (.ok _, pos₁) => q input pos₁

/-- `FollowedBy.parse`: like `thenP` but the second value is dropped. -/
def followedByP {T U : Type} (p : Parser T) (q : Parser U) : Parser T := fun input pos =>
  match p input pos with
  | (.fail r, pos') => (.fail r, pos')
  | (.ok v, pos₁) =>
      match q input pos₁ with
      | (.fail r, pos₂) => (.fail r, pos₂)
      | (.ok _, pos₂) => (.ok v, pos₂)

/-- `Map.parse`: transform the success value, propagate failure verbatim. -/
def mapP {T U : Type} (p : Parser T) (f : T → U) : Parser U := fun input pos =>
  match p input pos with
  | (.fail r, pos') => (.fail r, pos')
  | (.ok v, pos') => (.ok (f v), pos')

/-- `Peek.parse`: save the position, run the sub-parser, always restore the
saved position, and return the sub-parser's outcome. -/
def peekP {T : Type} (p : Parser T) : Parser T := fun input pos =>
  ((p input pos).1, pos)

/-- `Not.parse`: the wrapped parser is `peek` of the sub-parser (the `Not`
constructor wraps `parser.peek()`), so the position is always restored; the
outcome is inverted, a reason-less failure on success and a void success on
failure. -/
def notP {T : Type} (p : Parser T) : Parser Unit := fun input pos =>
  match peekP p input pos with
  | (.ok _, pos') => (.fail none, pos')
  | (.fail _, pos') => (.ok (), pos')

/-- `Skip.parse`: run the sub-parser; convert its success value to void and
return its failure as-is. -/
def skipP {T : Type} (p : Parser T) : Parser Unit := fun input pos =>
  match p input pos with
  | (.ok _, pos') => (.ok (), pos')
  | (.fail r, pos') => (.fail r, pos')

/-- `Expect.parse`: success untouched; on failure, a failure at the cursor
position the sub-parser stopped at, with reason `expecting ` followed by the
label. -/
def expectP {T : Type} (p : Parser T) (what : String) : Parser T := fun input pos =>
  match p input pos with
  | (.ok v, pos') => (.ok v, pos')
  | (.fail _, pos') => (.fail (some ("expecting " ++ what)), pos')

/-- Loop body of `Many.parse`, with explicit fuel bounding the number of
iterations.  Each iteration saves the position and attempts the sub-parser;
on failure it restores the saved position and succeeds with the values
accumulated so far; on success it accumulates and loops.  Exhausted fuel
yields a reason-less failure; the fuel chosen in `manyP` is provably
sufficient whenever every success of the sub-parser strictly advances the
position without passing the end of the input, so for such parsers the
exhaustion branch is unreachable. -/
def manyAux {T : Type} (p : Parser T) (input : List Char) : Nat → Nat → ParseResult (List T) × Nat
  | 0, pos => (.fail none, pos)
  | fuel + 1, pos =>
      match p input pos with
      | (.fail _, _) => (.ok [], pos)
      | (.ok v, pos') =>
          match manyAux p input fuel pos' with
          | (.ok vs, pos'') => (.ok (v :: vs), pos'')
          | (.fail r, pos'') => (.fail r, pos'')

/-- `Many.parse` (`P.many()` for a value-keeping parser). -/
def manyP {T : Type} (p : Parser T) : Parser (List T) := fun input pos =>
  manyAux p input (input.length + 1 - pos) pos

/-- `P.many1()`: the method body is `self.then(self.many())` mapped through
an unshift of the head onto the tail. -/
def many1P {T : Type} (p : Parser T) : Parser (List T) :=
  mapP (thenP p (manyP p)) (fun x => x.1 :: x.2)

/-- `P.until(u)` as the `until` method builds it:
`until.not().next(this).many().then(until)`. -/
def untilP {T U : Type} (p : Parser T) (u : Parser U) : Parser (List T × U) :=
  thenP (manyP (nextP (notP u) p)) u

/-- Loop body of `UntilFollowedBy.parse`, with fuel as in `manyAux`.  Each
iteration saves the position and probes the terminator; on its success the
accumulated values are returned with the terminator's consumption kept; on
its failure the saved position is restored and the repeated parser runs,
accumulating on success and propagating its failure verbatim. -/
def untilFollowedByAux {T U : Type} (p : Parser T) (u : Parser U) (input : List Char) :
    Nat → Nat → ParseResult (List T) × Nat
  | 0, pos => (.fail none, pos)
  | fuel + 1, pos =>
      match u input pos with
      | (.ok _, posU) => (.ok [], posU)
      | (.fail _, _) =>
          match p input pos with
          | (.ok v, pos') =>
              match untilFollowedByAux p u input fuel pos' with
              | (.ok vs, pos'') => (.ok (v :: vs), pos'')
              | (.fail r, pos'') => (.fail r, pos'')
          | (.fail r, pos') => (.fail r, pos')

/-- `UntilFollowedBy.parse` (`P.untilFollowedBy(u)`). -/
def untilFollowedByP {T U : Type} (p : Parser T) (u : Parser U) : Parser (List T) :=
  fun input pos => untilFollowedByAux p u input (input.length + 1 - pos) pos

/-- The loop of `Seq.parse` over the parsers after the first: values are
collected in order, and a failing element's failure is returned verbatim. -/
def seqRest {T : Type} (input : List Char) : List (Parser T) → Nat → ParseResult (List T) × Nat
  | [], pos => (.ok [], pos)
  | q :: qs, pos =>
      match q input pos with
      | (.fail r, pos') => (.fail r, pos')
      | (.ok v, pos') =>
          match seqRest input qs pos' with
          | (.ok vs, pos'') => (.ok (v :: vs), pos'')
          | (.fail r, pos'') => (.fail r, pos'')

/-- `Seq.parse` (`seq(p, ...rest)` for value-keeping parsers): if the first
parser fails, a fresh reason-less failure at the position where it stopped;
afterwards the remaining parsers run in order, a failure among them returned
verbatim, and the values are collected into a list. -/
def seqP {T : Type} (p : Parser T) (rest : List (Parser T)) : Parser (List T) := fun input pos =>
  match p input pos with
  | (.fail _, pos') => (.fail none, pos')
  | (.ok v, pos₁) =>
      match seqRest input rest pos₁ with
      | (.ok vs, pos₂) => (.ok (v :: vs), pos₂)
      | (.fail r, pos₂) => (.fail r, pos₂)

/-- The loop of `SkipSeq.parse` over the parsers after the first. -/
def skipSeqRest {T : Type} (input : List Char) : List (Parser T) → Nat → ParseResult Unit × Nat
  | [], pos => (.ok (), pos)
  | q :: qs, pos =>
      match q input pos with
      | (.fail r, pos') => (.fail r, pos')
      | (.ok _, pos') => skipSeqRest input qs pos'

/-- `SkipSeq.parse` (`seq` over discard-marked parsers): as `Seq.parse` but
no values are accumulated and success carries void. -/
def skipSeqP {T : Type} (p : Parser T) (rest : List (Parser T)) : Parser Unit := fun input pos =>
  match p input pos with
  | (.fail _, pos') => (.fail none, pos')
  | (.ok _, pos₁) => skipSeqRest input rest pos₁

/-- Loop body of `SkipMany.parse`, with fuel as in `manyAux`. -/
def skipManyAux {T : Type} (p : Parser T) (input : List Char) : Nat → Nat → ParseResult Unit × Nat
  | 0, pos => (.fail none, pos)
  | fuel + 1, pos =>
      match p input pos with
      | (.fail _, _) => (.ok (), pos)
      | (.ok _, pos') => skipManyAux p input fuel pos'

/-- `SkipMany.parse` (`P.many()` for a discard-marked parser). -/
def skipManyP {T : Type} (p : Parser T) : Parser Unit := fun input pos =>
  skipManyAux p input (input.length + 1 - pos) pos

/-- `Times.parse`: run the sub-parser exactly `n` times, collecting the
values in order; a failing attempt's failure is returned verbatim. -/
def timesP {T : Type} (p : Parser T) (input : List Char) : Nat → Nat → ParseResult (List T) × Nat
  | 0, pos => (.ok [], pos)
  | n + 1, pos =>
      match p input pos with
      | (.fail r, pos') => (.fail r, pos')
      | (.ok v, pos') =>
          match timesP p input n pos' with
          | (.ok vs, pos'') => (.ok (v :: vs), pos'')
          | (.fail r, pos'') => (.fail r, pos'')

/-- `TimesSkip.parse`: as `Times.parse` without accumulation. -/
def timesSkipP {T : Type} (p : Parser T) (input : List Char) : Nat → Nat → ParseResult Unit × Nat
  | 0, pos => (.ok (), pos)
  | n + 1, pos =>
      match p input pos with
      | (.fail r, pos') => (.fail r, pos')
      | (.ok _, pos') => timesSkipP p input n pos'

/-- `PeekSkip.parse`: save the position, run the (discard-marked)
sub-parser, restore the position; success carries void, failure is returned
as-is. -/
def peekSkipP (p : Parser Unit) : Parser Unit := fun input pos =>
  match p input pos with
  | (.ok _, _) => (.ok (), pos)
  | (.fail r, _) => (.fail r, pos)

/-- `join` with the default empty separator, applied as the example grammars
do to a sequence of single-character matches: concatenation of the
characters. -/
def joinP (p : Parser (List Char)) : Parser String :=
  mapP p (fun cs => String.mk cs)

/-- `string_literal()` with the default quote and escape parsers
(src/parsers/string_literal.ts):
`boundary.next(escaped_character.untilFollowedBy(boundary)).join()` where
`escaped_character` is `escape_character.next(any()).or(any())`. -/
def string_literal : Parser String :=
  joinP (nextP (charP '"') (untilFollowedByP (orP (nextP (charP '\\') anyP) anyP) (charP '"')))


/-! Helper lemmas shared by the claim theorems. -/

/-- A successful `charP` consumed exactly one character of the input, so it
strictly advances the position and stays within the input. -/
theorem charP_progress (c : Char) (input : List Char) :
    ∀ pos v pos', charP c input pos = (.ok v, pos') → pos < pos' ∧ pos' ≤ input.length := by
  intro pos v pos' h
  unfold charP next at h
  rcases hg : input[pos]? with _ | ch
  · simp [hg] at h
  · have hlt : pos < input.length := by
      rcases Nat.lt_or_ge pos input.length with h' | h'
      · exact h'
      · rw [List.getElem?_eq_none h'] at hg; cases hg
    rw [hg] at h
    by_cases hc : ch = c
    · simp [hc] at h
      omega
    · simp [hc] at h

/-- When every success of the sub-parser strictly advances the position
within the input, the fuel chosen in `manyP` is sufficient: the repetition
loop ends with a success. -/
theorem manyAux_ok {T : Type} (p : Parser T) (input : List Char)
    (hprog : ∀ q v q', p input q = (.ok v, q') → q < q' ∧ q' ≤ input.length) :
    ∀ fuel pos, pos ≤ input.length → input.length + 1 - pos ≤ fuel →
      ∃ vs pos', manyAux p input fuel pos = (.ok vs, pos') ∧ pos' ≤ input.length := by
  intro fuel
  induction fuel with
  | zero => intro pos h1 h2; omega
  | succ fuel ih =>
    intro pos h1 h2
    rcases hp : p input pos with ⟨v | r, pos'⟩
    · obtain ⟨hlt, hle⟩ := hprog pos v pos' hp
      obtain ⟨vs, pos'', heq, hle'⟩ := ih pos' hle (by omega)
      exact ⟨v :: vs, pos'', by simp [manyAux, hp, heq], hle'⟩
    · exact ⟨[], pos, by simp [manyAux, hp], h1⟩

/-- Above the sufficiency threshold the amount of fuel does not affect the
result of the repetition loop. -/
theorem manyAux_fuel {T : Type} (p : Parser T) (input : List Char)
    (hprog : ∀ q v q', p input q = (.ok v, q') → q < q' ∧ q' ≤ input.length) :
    ∀ f₁ f₂ pos, pos ≤ input.length → input.length + 1 - pos ≤ f₁ →
      input.length + 1 - pos ≤ f₂ →
      manyAux p input f₁ pos = manyAux p input f₂ pos := by
  intro f₁
  induction f₁ with
  | zero => intro f₂ pos h1 h2 h3; omega
  | succ f₁ ih =>
    intro f₂ pos h1 h2 h3
    obtain ⟨f₂', rfl⟩ : ∃ k, f₂ = k + 1 := ⟨f₂ - 1, by omega⟩
    rcases hp : p input pos with ⟨v | r, pos'⟩
    · obtain ⟨hlt, hle⟩ := hprog pos v pos' hp
      have hrec := ih f₂' pos' hle (by omega) (by omega)
      simp [manyAux, hp, hrec]
    · simp [manyAux, hp]

/-- The discard-marked sequence loop agrees with the value-keeping sequence
loop: same final position, success exactly together, failures identical. -/
theorem skipSeqRest_eq_seqRest {T : Type} (input : List Char) :
    ∀ (qs : List (Parser T)) (pos : Nat),
      skipSeqRest input qs pos =
        ((seqRest input qs pos).1.toUnit, (seqRest input qs pos).2) := by
  intro qs
  induction qs with
  | nil => intro pos; simp [skipSeqRest, seqRest, ParseResult.toUnit]
  | cons q qs ih =>
    intro pos
    rcases hq : q input pos with ⟨v | r, pos'⟩
    · rcases hrest : seqRest input qs pos' with ⟨vs | r', pos''⟩ <;>
        simp [skipSeqRest, seqRest, hq, hrest, ih, ParseResult.toUnit]
    · simp [skipSeqRest, seqRest, hq, ParseResult.toUnit]

/-- The discard-marked repetition loop agrees with the value-keeping
repetition loop at every fuel. -/
theorem skipManyAux_eq_manyAux {T : Type} (p : Parser T) (input : List Char) :
    ∀ (fuel pos : Nat),
      skipManyAux p input fuel pos =
        ((manyAux p input fuel pos).1.toUnit, (manyAux p input fuel pos).2) := by
  intro fuel
  induction fuel with
  | zero => intro pos; simp [skipManyAux, manyAux, ParseResult.toUnit]
  | succ fuel ih =>
    intro pos
    rcases hp : p input pos with ⟨v | r, pos'⟩
    · rcases hrest : manyAux p input fuel pos' with ⟨vs | r', pos''⟩ <;>
        simp [skipManyAux, manyAux, hp, hrest, ih, ParseResult.toUnit]
    · simp [skipManyAux, manyAux, hp, ParseResult.toUnit]

/-- The discard-marked exact-count loop agrees with the value-keeping
exact-count loop. -/
theorem timesSkipP_eq_timesP {T : Type} (p : Parser T) (input : List Char) :
    ∀ (n pos : Nat),
      timesSkipP p input n pos =
        ((timesP p input n pos).1.toUnit, (timesP p input n pos).2) := by
  intro n
  induction n with
  | zero => intro pos; simp [timesSkipP, timesP, ParseResult.toUnit]
  | succ n ih =>
    intro pos
    rcases hp : p input pos with ⟨v | r, pos'⟩
    · rcases hrest : timesP p input n pos' with ⟨vs | r', pos''⟩ <;>
        simp [timesSkipP, timesP, hp, hrest, ih, ParseResult.toUnit]
    · simp [timesSkipP, timesP, hp, ParseResult.toUnit]

/-! The claims. -/

/-- C1, counterexample: `char("a").until(char("b"))` on input `"aab"` does
not behave as claimed.  The `until` method builds
`until.not().next(this).many().then(until)`, so the run actually succeeds
with the pair value `(["a","a"], "b")` and leaves the cursor at position 3:
the terminator is consumed and its value is part of the result, hence the
cursor is not left at position 2. -/
theorem C1_counterexample :
    untilP (charP 'a') (charP 'b') ['a', 'a', 'b'] 0 = (.ok (['a', 'a'], 'b'), 3)
    ∧ (untilP (charP 'a') (charP 'b') ['a', 'a', 'b'] 0).2 ≠ 2 := by
  constructor <;> decide

/-- C1, amended: for the parser `char("a").until(char("b"))` run against a
cursor over input `"aab"` starting at position 0, the parse succeeds with
value `(["a","a"], "b")` and leaves the cursor at position 3, immediately
after the `"b"`: the terminator is consumed and its value is included in the
result tuple. -/
theorem C1_amended :
    untilP (charP 'a') (charP 'b') ['a', 'a', 'b'] 0 = (.ok (['a', 'a'], 'b'), 3) := by
  decide

/-- C2: for every pair of parsers of the same value type and every cursor
state, `P.or(Q)` runs `P` from the current position; if `P` succeeds its
result is returned unchanged; if `P` fails, `Q` runs from the saved
(original) position and its result — success or failure — is returned
verbatim, so when both branches fail the returned failure is exactly `Q`'s
failure with nothing taken from `P`'s. -/
theorem C2_or {T : Type} (p q : Parser T) (input : List Char) (pos : Nat) :
    (∀ v pos', p input pos = (.ok v, pos') → orP p q input pos = (.ok v, pos'))
    ∧ (∀ r pos', p input pos = (.fail r, pos') → orP p q input pos = q input pos)
    ∧ (∀ r pos' r₂ pos₂, p input pos = (.fail r, pos') →
        q input pos = (.fail r₂, pos₂) → orP p q input pos = (.fail r₂, pos₂)) := by
  refine ⟨?_, ?_, ?_⟩
  · intro v pos' h; simp [orP, h]
  · intro r pos' h; simp [orP, h]
  · intro r pos' r₂ pos₂ h hq; simp [orP, h, hq]

/-- C2, witness: with `P = char("a")` failing on input `"b"`, `P.or(Q)`
returns `Q`'s result. -/
theorem C2_witness : orP (charP 'a') (charP 'b') ['b'] 0 = (.ok 'b', 1) := by
  have h := (C2_or (charP 'a') (charP 'b') ['b'] 0).2.1
    (some "expecting \"a\", got \"b\"") 1 (by decide)
  rw [h]; decide

/-- C3: `seq(P,Q,R)` and `P.then(Q).then(R)` succeed together, always leave
the cursor at the same position, a success of the then-chain with value
`((a,b),c)` corresponds to the success `[a,b,c]` of `seq` (the flattening of
the nested tuples, in order), and when an element fails both forms leave the
cursor at the position left by the first failing element. -/
theorem C3_seq_then {T : Type} (p q r : Parser T) (input : List Char) (pos : Nat) :
    ((seqP p [q, r] input pos).1.isOk = (thenP (thenP p q) r input pos).1.isOk)
    ∧ (seqP p [q, r] input pos).2 = (thenP (thenP p q) r input pos).2
    ∧ (∀ a b c pos', thenP (thenP p q) r input pos = (.ok ((a, b), c), pos') →
        seqP p [q, r] input pos = (.ok [a, b, c], pos'))
    ∧ (∀ r₁ pos₁, p input pos = (.fail r₁, pos₁) →
        (seqP p [q, r] input pos).2 = pos₁ ∧ (thenP (thenP p q) r input pos).2 = pos₁)
    ∧ (∀ a pos₁ r₂ pos₂, p input pos = (.ok a, pos₁) → q input pos₁ = (.fail r₂, pos₂) →
        (seqP p [q, r] input pos).2 = pos₂ ∧ (thenP (thenP p q) r input pos).2 = pos₂)
    ∧ (∀ a pos₁ b pos₂ r₃ pos₃, p input pos = (.ok a, pos₁) → q input pos₁ = (.ok b, pos₂) →
        r input pos₂ = (.fail r₃, pos₃) →
        (seqP p [q, r] input pos).2 = pos₃ ∧ (thenP (thenP p q) r input pos).2 = pos₃) := by
  refine ⟨?_, ?_, ?_, ?_, ?_, ?_⟩
  · rcases hp : p input pos with ⟨a | r₁, pos₁⟩
    · rcases hq : q input pos₁ with ⟨b | r₂, pos₂⟩
      · rcases hr : r input pos₂ with ⟨c | r₃, pos₃⟩ <;>
          simp [seqP, seqRest, thenP, hp, hq, hr, ParseResult.isOk]
      · simp [seqP, seqRest, thenP, hp, hq, ParseResult.isOk]
    · simp [seqP, seqRest, thenP, hp, ParseResult.isOk]
  · rcases hp : p input pos with ⟨a | r₁, pos₁⟩
    · rcases hq : q input pos₁ with ⟨b | r₂, pos₂⟩
      · rcases hr : r input pos₂ with ⟨c | r₃, pos₃⟩ <;>
          simp [seqP, seqRest, thenP, hp, hq, hr]
      · simp [seqP, seqRest, thenP, hp, hq]
    · simp [seqP, seqRest, thenP, hp]
  · intro a b c pos' h
    rcases hp : p input pos with ⟨a' | r₁, pos₁⟩
    · rcases hq : q input pos₁ with ⟨b' | r₂, pos₂⟩
      · rcases hr : r input pos₂ with ⟨c' | r₃, pos₃⟩
        · simp only [thenP, hp, hq, hr] at h
          rcases h with ⟨⟨⟨rfl, rfl⟩, rfl⟩, rfl⟩
          simp [seqP, seqRest, hp, hq, hr]
        · simp [thenP, hp, hq, hr] at h
      · simp [thenP, hp, hq] at h
    · simp [thenP, hp] at h
  · intro r₁ pos₁ hp
    simp [seqP, thenP, hp]
  · intro a pos₁ r₂ pos₂ hp hq
    simp [seqP, seqRest, thenP, hp, hq]
  · intro a pos₁ b pos₂ r₃ pos₃ hp hq hr
    simp [seqP, seqRest, thenP, hp, hq, hr]

/-- C3, witness: on input `"aab"`, `P.then(Q).then(R)` with
`char("a"), char("a"), char("b")` succeeds with `(("a","a"),"b")`, so
`seq(P,Q,R)` succeeds with the flattened `["a","a","b"]` at the same
position. -/
theorem C3_witness :
    seqP (charP 'a') [charP 'a', charP 'b'] ['a', 'a', 'b'] 0 = (.ok ['a', 'a', 'b'], 3) :=
  (C3_seq_then (charP 'a') (charP 'a') (charP 'b') ['a', 'a', 'b'] 0).2.2.1
    'a' 'a' 'b' 3 (by decide)

/-- C4: for every parser and every cursor state, `peek` leaves the cursor
position exactly where it was and returns the sub-parser's outcome — the
same success value or the same failure — unaltered. -/
theorem C4_peek {T : Type} (p : Parser T) (input : List Char) (pos : Nat) :
    (peekP p input pos).2 = pos ∧ (peekP p input pos).1 = (p input pos).1 :=
  ⟨rfl, rfl⟩

/-- C5: for a parser whose every success strictly advances the cursor
within the input, and any start position inside the input: `many` always
succeeds; if the first attempt fails, `many` succeeds with the empty
sequence at the restored start position; if the first attempt succeeds,
`many` succeeds with that value prepended to the result of `many` from the
new position; `many1` returns the first attempt's failure verbatim when it
fails, and otherwise succeeds with the first value prepended to the
remaining matches. -/
theorem C5_many {T : Type} (p : Parser T) (input : List Char) (pos : Nat)
    (hprog : ∀ q v q', p input q = (.ok v, q') → q < q' ∧ q' ≤ input.length)
    (hpos : pos ≤ input.length) :
    (∃ vs pos', manyP p input pos = (.ok vs, pos'))
    ∧ (∀ r pos', p input pos = (.fail r, pos') → manyP p input pos = (.ok [], pos))
    ∧ (∀ v pos₁, p input pos = (.ok v, pos₁) →
        ∃ vs pos₂, manyP p input pos₁ = (.ok vs, pos₂)
          ∧ manyP p input pos = (.ok (v :: vs), pos₂))
    ∧ (∀ r pos', p input pos = (.fail r, pos') → many1P p input pos = (.fail r, pos'))
    ∧ (∀ v pos₁, p input pos = (.ok v, pos₁) →
        ∃ vs pos₂, manyP p input pos₁ = (.ok vs, pos₂)
          ∧ many1P p input pos = (.ok (v :: vs), pos₂)) := by
  obtain ⟨fuel, hfuel⟩ : ∃ k, input.length + 1 - pos = k + 1 :=
    ⟨input.length - pos, by omega⟩
  refine ⟨?_, ?_, ?_, ?_, ?_⟩
  · obtain ⟨vs, pos', heq, _⟩ :=
      manyAux_ok p input hprog (input.length + 1 - pos) pos hpos (le_refl _)
    exact ⟨vs, pos', heq⟩
  · intro r pos' hp
    simp [manyP, hfuel, manyAux, hp]
  · intro v pos₁ hp
    obtain ⟨hlt, hle⟩ := hprog pos v pos₁ hp
    obtain ⟨vs, pos₂, heq, _⟩ :=
      manyAux_ok p input hprog (input.length + 1 - pos₁) pos₁ hle (le_refl _)
    refine ⟨vs, pos₂, heq, ?_⟩
    have hsame : manyAux p input fuel pos₁ = manyAux p input (input.length + 1 - pos₁) pos₁ :=
      manyAux_fuel p input hprog fuel (input.length + 1 - pos₁) pos₁ hle (by omega) (le_refl _)
    simp [manyP, hfuel, manyAux, hp, hsame, heq]
  · intro r pos' hp
    simp [many1P, mapP, thenP, hp]
  · intro v pos₁ hp
    obtain ⟨hlt, hle⟩ := hprog pos v pos₁ hp
    obtain ⟨vs, pos₂, heq, _⟩ :=
      manyAux_ok p input hprog (input.length + 1 - pos₁) pos₁ hle (le_refl _)
    refine ⟨vs, pos₂, heq, ?_⟩
    simp [many1P, mapP, thenP, hp, manyP, heq]

/-- C5, witness: `char("a")` strictly advances on success, and on input
`"b"` its first attempt fails, so `many` succeeds with the empty sequence at
the restored position 0. -/
theorem C5_witness : manyP (charP 'a') ['b'] 0 = (.ok ([] : List Char), 0) :=
  (C5_many (charP 'a') ['b'] 0 (charP_progress 'a' ['b']) (by decide)).2.1
    (some "expecting \"a\", got \"b\"") 1 (by decide)

/-- C6, counterexample: `not` applied to the discardable parser
`char("a").skip()` produces a skip-marked parser that fails on input `"a"`
even though its underlying parse succeeds there, so a discardable parser
does not always succeed exactly when its underlying parse succeeds. -/
theorem C6_counterexample :
    (notP (skipP (charP 'a')) ['a'] 0).1.isOk = false
    ∧ ((skipP (charP 'a')) ['a'] 0).1.isOk = true := by
  constructor <;> decide

/-- C6, amended: every discardable parser produced by `skip` itself and by
the skip variants of sequencing, repetition, exact-count repetition and
lookahead succeeds exactly when its underlying (value-keeping) parse
succeeds, at the same final cursor position, its success carries a
void payload, and its failure is the underlying failure unchanged; the skip
variant produced by `not` instead inverts its sub-parser — a void success
exactly when the sub-parser fails and a reason-less failure when it
succeeds, always at the restored position. -/
theorem C6_skip_family {T : Type} :
    (∀ (p : Parser T) (input : List Char) (pos : Nat),
        skipP p input pos = ((p input pos).1.toUnit, (p input pos).2))
    ∧ (∀ (p : Parser T) (rest : List (Parser T)) (input : List Char) (pos : Nat),
        skipSeqP p rest input pos =
          ((seqP p rest input pos).1.toUnit, (seqP p rest input pos).2))
    ∧ (∀ (p : Parser T) (input : List Char) (pos : Nat),
        skipManyP p input pos = ((manyP p input pos).1.toUnit, (manyP p input pos).2))
    ∧ (∀ (p : Parser T) (input : List Char) (n pos : Nat),
        timesSkipP p input n pos = ((timesP p input n pos).1.toUnit, (timesP p input n pos).2))
    ∧ (∀ (p : Parser Unit) (input : List Char) (pos : Nat),
        peekSkipP p input pos = ((peekP p input pos).1.toUnit, (peekP p input pos).2))
    ∧ (∀ (p : Parser T) (input : List Char) (pos : Nat),
        notP p input pos = (if (p input pos).1.isOk then .fail none else .ok (), pos)) := by
  refine ⟨?_, ?_, ?_, ?_, ?_, ?_⟩
  · intro p input pos
    rcases hp : p input pos with ⟨v | r, pos'⟩ <;> simp [skipP, hp, ParseResult.toUnit]
  · intro p rest input pos
    rcases hp : p input pos with ⟨v | r, pos₁⟩
    · rcases hrest : seqRest input rest pos₁ with ⟨vs | r', pos₂⟩ <;>
        simp [skipSeqP, seqP, hp, hrest, skipSeqRest_eq_seqRest, ParseResult.toUnit]
    · simp [skipSeqP, seqP, hp, ParseResult.toUnit]
  · intro p input pos
    simp [skipManyP, manyP, skipManyAux_eq_manyAux]
  · intro p input n pos
    simp [timesSkipP_eq_timesP]
  · intro p input pos
    rcases hp : p input pos with ⟨v | r, pos'⟩ <;> simp [peekSkipP, peekP, hp, ParseResult.toUnit]
  · intro p input pos
    rcases hp : p input pos with ⟨v | r, pos'⟩ <;> simp [notP, peekP, hp, ParseResult.isOk]

/-- C7: `P.expect(w)` returns `P`'s success untouched, and on `P`'s failure
returns a failure whose reason is exactly `expecting w` (the label
interpolated after `expecting `) at the position where `P`'s failure left
the cursor. -/
theorem C7_expect {T : Type} (p : Parser T) (w : String) (input : List Char) (pos : Nat) :
    (∀ v pos', p input pos = (.ok v, pos') → expectP p w input pos = (.ok v, pos'))
    ∧ (∀ r pos', p input pos = (.fail r, pos') →
        expectP p w input pos = (.fail (some ("expecting " ++ w)), pos')) := by
  constructor
  · intro v pos' h; simp [expectP, h]
  · intro r pos' h; simp [expectP, h]

/-- C7, witness: `char("a").expect("letter a")` on input `"b"` fails with
reason `expecting letter a` at the position where the underlying failure
occurred. -/
theorem C7_witness :
    expectP (charP 'a') "letter a" ['b'] 0 = (.fail (some "expecting letter a"), 1) := by
  have h := (C7_expect (charP 'a') "letter a" ['b'] 0).2
    (some "expecting \"a\", got \"b\"") 1 (by decide)
  rw [h]; decide

/-- C8: with the default quote and escape characters, `string_literal` on
the 9-character input `"Hell\"o"` succeeds with value `Hell"o`, and on the
8-character input `"Hell\o"` succeeds with value `Hello`: an escape
character followed by any character yields that character. -/
theorem C8_string_literal :
    string_literal ['"', 'H', 'e', 'l', 'l', '\\', '"', 'o', '"'] 0 = (.ok "Hell\"o", 9)
    ∧ string_literal ['"', 'H', 'e', 'l', 'l', '\\', 'o', '"'] 0 = (.ok "Hello", 8) := by
  constructor <;> decide

/-- C9: when the cursor is not at end of input and the next character does
not satisfy `char`, `oneOf` or `eof`, the primitive fails with the position
advanced one unit past the offending character; when the cursor is at end of
input, a failing `char` or `oneOf` leaves the position unchanged. -/
theorem C9_primitives (c : Char) (chars : List Char) (input : List Char) (pos : Nat) :
    (∀ ch, input[pos]? = some ch → ch ≠ c →
        (charP c input pos).1.isOk = false ∧ (charP c input pos).2 = pos + 1)
    ∧ (input[pos]? = none →
        (charP c input pos).1.isOk = false ∧ (charP c input pos).2 = pos)
    ∧ (∀ ch, input[pos]? = some ch → ch ∉ chars →
        (oneOfP chars input pos).1.isOk = false ∧ (oneOfP chars input pos).2 = pos + 1)
    ∧ (input[pos]? = none →
        (oneOfP chars input pos).1.isOk = false ∧ (oneOfP chars input pos).2 = pos)
    ∧ (∀ ch, input[pos]? = some ch →
        (eofP input pos).1.isOk = false ∧ (eofP input pos).2 = pos + 1) := by
  refine ⟨?_, ?_, ?_, ?_, ?_⟩
  · intro ch hg hne; simp [charP, next, hg, hne, ParseResult.isOk]
  · intro hg; simp [charP, next, hg, ParseResult.isOk]
  · intro ch hg hnm; simp [oneOfP, next, hg, hnm, ParseResult.isOk]
  · intro hg; simp [oneOfP, next, hg, ParseResult.isOk]
  · intro ch hg; simp [eofP, next, hg, ParseResult.isOk]

/-- C9, witness: `char("a")` on input `"b"` fails with the position advanced
from 0 to 1, and on empty input fails with the position still 0. -/
theorem C9_witness :
    ((charP 'a' ['b'] 0).1.isOk = false ∧ (charP 'a' ['b'] 0).2 = 0 + 1)
    ∧ ((charP 'a' ([] : List Char) 0).1.isOk = false ∧ (charP 'a' ([] : List Char) 0).2 = 0) :=
  ⟨(C9_primitives 'a' ['x'] ['b'] 0).1 'b' rfl (by decide),
   (C9_primitives 'a' ['x'] ([] : List Char) 0).2.1 rfl⟩

/-- C10: in `seq` (and its discard-marked form), a failure of the first
parser is replaced by a fresh reason-less failure at the cursor position
where that parser stopped, discarding its reason; a failure of any later
parser is returned verbatim, reason intact, and a succeeding later parser
hands its position on to the remaining chain. -/
theorem C10_seq_first_failure {T : Type} (p : Parser T) (rest : List (Parser T))
    (input : List Char) (pos : Nat) :
    (∀ r pos', p input pos = (.fail r, pos') → seqP p rest input pos = (.fail none, pos'))
    ∧ (∀ v pos₁ r pos₂, p input pos = (.ok v, pos₁) →
        seqRest input rest pos₁ = (.fail r, pos₂) → seqP p rest input pos = (.fail r, pos₂))
    ∧ (∀ (q : Parser T) qs pos₁ r pos₂, q input pos₁ = (.fail r, pos₂) →
        seqRest input (q :: qs) pos₁ = (.fail r, pos₂))
    ∧ (∀ (q : Parser T) qs pos₁ v pos₂, q input pos₁ = (.ok v, pos₂) →
        seqRest input (q :: qs) pos₁ =
          (match seqRest input qs pos₂ with
           | (.ok vs, pos₃) => (.ok (v :: vs), pos₃)
           | (.fail r, pos₃) => (.fail r, pos₃)))
    ∧ (∀ r pos', p input pos = (.fail r, pos') → skipSeqP p rest input pos = (.fail none, pos'))
    ∧ (∀ v pos₁ r pos₂, p input pos = (.ok v, pos₁) →
        skipSeqRest input rest pos₁ = (.fail r, pos₂) →
        skipSeqP p rest input pos = (.fail r, pos₂))
    ∧ (∀ (q : Parser T) qs pos₁ r pos₂, q input pos₁ = (.fail r, pos₂) →
        skipSeqRest input (q :: qs) pos₁ = (.fail r, pos₂)) := by
  refine ⟨?_, ?_, ?_, ?_, ?_, ?_, ?_⟩
  · intro r pos' h; simp [seqP, h]
  · intro v pos₁ r pos₂ hp hrest; simp [seqP, hp, hrest]
  · intro q qs pos₁ r pos₂ h; simp [seqRest, h]
  · intro q qs pos₁ v pos₂ h; simp [seqRest, h]
  · intro r pos' h; simp [skipSeqP, h]
  · intro v pos₁ r pos₂ hp hrest; simp [skipSeqP, hp, hrest]
  · intro q qs pos₁ r pos₂ h; simp [skipSeqRest, h]

/-- C10, witness: `seq(char("a"), char("b"))` on input `"x"`: the first
parser fails with a reason, and `seq` returns a reason-less failure at the
position the first parser stopped at. -/
theorem C10_witness : seqP (charP 'a') [charP 'b'] ['x'] 0 = (.fail none, 1) :=
  (C10_seq_first_failure (charP 'a') [charP 'b'] ['x'] 0).1
    (some "expecting \"a\", got \"x\"") 1 (by decide)

end Shrewd
